import Mathlib

/-!
Verification development for the deterministic fixed-timestep spiking
neural network engine exposed through the `shnn_ffi.h` boundary.

The repository ships only the C interface declarations
(`src/crates/shnn-ffi/include/shnn_ffi.h`); the engine behind them is not
present in the sources.  Every behavioural definition below is therefore a
shallow embedding modelled from the design document (`spec.md`), kept
faithful to its words: builder state machine (spec section 4.1), fixed-step
simulation engine (section 4.2), VEVT event codec (section 4.3) and weight
exchange (section 4.4).  Machine floats are modelled as rationals (they are
only stored, copied, compared and combined by ring operations here);
machine integers are `Nat` with explicit bounds where a wire width matters.
-/

/-- Modelled from the spec: the closed error taxonomy of section 7
(the Rust implementation behind `shnn_ffi.h` is not in the sources).
`nullHandle` is the distinct defensive rejection of an already-consumed
or absent handle demanded by section 7. -/
inductive HsnnError where
  | rangeOverlap
  | invalidRange
  | unknownNeuron (id : Nat)
  | invalidDuration
  | formatError
  | truncatedData
  | allocationFailure
  | nullHandle
deriving DecidableEq

/-- Modelled from the spec: each error kind maps to exactly one non-zero
status code; `0` is success (spec section 6). -/
def statusOf : HsnnError → Int
  | .rangeOverlap => 1
  | .invalidRange => 2
  | .unknownNeuron _ => 3
  | .invalidDuration => 4
  | .formatError => 5
  | .truncatedData => 6
  | .allocationFailure => 7
  | .nullHandle => 8

/-- A directed synapse: (pre, post) endpoints, weight and integer delay in
ticks (spec section 3).  The float weight is modelled as a rational. -/
structure Synapse where
  pre : Nat
  post : Nat
  weight : Rat
  delay : Nat
deriving DecidableEq

/-- Modelled from the spec: the mutable builder draft of section 4.1 — the
declared neuron ranges and the list of pending synapses, in the order they
were added. -/
structure NetworkBuilder where
  ranges : List (Nat × Nat)
  synapses : List Synapse
deriving DecidableEq

/-- Is `id` inside one of the declared ranges `[start, start+count)`? -/
def declaredb (ranges : List (Nat × Nat)) (id : Nat) : Bool :=
  ranges.any fun r => decide (r.1 ≤ id ∧ id < r.1 + r.2)

/-- Modelled from the spec: `hsnn_network_builder_new` yields the empty
draft (spec section 4.1, no failure mode). -/
def hsnn_network_builder_new : NetworkBuilder :=
  { ranges := [], synapses := [] }

/-- Modelled from the spec: `hsnn_network_builder_add_neuron_range`
registers ids `[start, start+count)`; fails with `InvalidRange` when
`count = 0` and with `RangeOverlap` when any id of the range is already
declared (spec section 4.1). -/
def hsnn_network_builder_add_neuron_range (b : NetworkBuilder)
    (start count : Nat) : Except HsnnError NetworkBuilder :=
  if count = 0 then
    .error .invalidRange
  else if (List.range' start count).any (fun id => declaredb b.ranges id) then
    .error .rangeOverlap
  else
    .ok { b with ranges := b.ranges ++ [(start, count)] }

/-- Modelled from the spec: `add_synapse(pre, post, weight, delay)` appends
a pending synapse without endpoint validation (spec section 4.1). -/
def add_synapse (b : NetworkBuilder) (pre post : Nat) (weight : Rat)
    (delay : Nat) : NetworkBuilder :=
  { b with synapses := b.synapses ++ [⟨pre, post, weight, delay⟩] }

/-- Modelled from the spec: `hsnn_network_builder_add_synapse_simple` is the
simple variant fixing the delay to one tick (spec sections 4.1 and 9). -/
def hsnn_network_builder_add_synapse_simple (b : NetworkBuilder)
    (pre post : Nat) (weight : Rat) : NetworkBuilder :=
  add_synapse b pre post weight 1

/-- An upper bound on all declared neuron ids: the largest `start+count`
over the declared ranges. -/
def rangesBound (ranges : List (Nat × Nat)) : Nat :=
  ranges.foldr (fun r m => max (r.1 + r.2) m) 0

/-- Modelled from the spec: the immutable network of section 3 — the neuron
id set in ascending order and the synapse list indexed (grouped) by source
neuron, sorted by source id then insertion order.  Per-instance dynamic
state lives in `SimState` and is created at simulation start. -/
structure SNNNetwork where
  neuronIds : List Nat
  synapses : List Synapse
deriving DecidableEq

/-- The network a successful build yields: the declared ids in ascending
order and the synapse index grouped stably by source id (spec
section 4.1). -/
def buildNet (b : NetworkBuilder) : SNNNetwork :=
  { neuronIds := (List.range (rangesBound b.ranges)).filter
      (fun id => declaredb b.ranges id),
    synapses := b.synapses.mergeSort (fun a b => decide (a.pre ≤ b.pre)) }

/-- Modelled from the spec: `hsnn_network_build` consumes the draft,
validates every pending synapse endpoint against the declared id set
(failing with `UnknownNeuron` naming the offending id) and on success
returns the immutable network whose synapse index is grouped by source id,
stably, and whose neuron ids are listed in ascending order
(spec section 4.1). -/
def hsnn_network_build (b : NetworkBuilder) : Except HsnnError SNNNetwork :=
  match b.synapses.find?
      (fun s => !(declaredb b.ranges s.pre && declaredb b.ranges s.post)) with
  | some s =>
      .error (.unknownNeuron (if declaredb b.ranges s.pre then s.post else s.pre))
  | none => .ok (buildNet b)

/-- A spike event: neuron id and timestamp in nanoseconds (spec section 3). -/
structure SpikeEvent where
  nid : Nat
  ts : Nat
deriving DecidableEq

/-- Little-endian encoding of `v` into exactly `k` bytes (values mod 256). -/
def toLE : Nat → Nat → List Nat
  | 0, _ => []
  | k + 1, v => v % 256 :: toLE k (v / 256)

/-- Little-endian decoding of a byte list back into a natural number. -/
def fromLE : List Nat → Nat
  | [] => 0
  | b :: bs => b + 256 * fromLE bs

/-- The VEVT magic tag bytes. -/
def vevtMagic : List Nat := [86, 69, 86, 84]

/-- The VEVT format version. -/
def vevtVersion : Nat := 1

/-- One fixed-width VEVT record: neuron id as 4-byte unsigned, timestamp as
8-byte unsigned (spec section 4.3). -/
def encodeEvent (e : SpikeEvent) : List Nat :=
  toLE 4 e.nid ++ toLE 8 e.ts

/-- All records of a trace, in emission order. -/
def encodeEvents : List SpikeEvent → List Nat
  | [] => []
  | e :: tr => encodeEvent e ++ encodeEvents tr

/-- Modelled from the spec: VEVT encoding — fixed header (magic tag,
format version, event count) followed by one fixed-width record per event
in emission order (spec section 4.3). -/
def vevtEncode (tr : List SpikeEvent) : List Nat :=
  vevtMagic ++ toLE 4 vevtVersion ++ toLE 4 tr.length ++ encodeEvents tr

/-- Decode `n` fixed-width records from a byte list. -/
def decodeEvents : Nat → List Nat → List SpikeEvent
  | 0, _ => []
  | n + 1, bs =>
      ⟨fromLE (bs.take 4), fromLE ((bs.drop 4).take 8)⟩ ::
        decodeEvents n (bs.drop 12)

/-- Modelled from the spec: VEVT decoding — rejects unknown magic or
version with `FormatError` and buffers whose length does not match the
header-declared count with `TruncatedData` (spec section 4.3). -/
def vevtDecode (bs : List Nat) : Except HsnnError (List SpikeEvent) :=
  if bs.length < 12 then .error .truncatedData
  else if bs.take 4 ≠ vevtMagic then .error .formatError
  else if (bs.drop 4).take 4 ≠ toLE 4 vevtVersion then .error .formatError
  else if (bs.drop 12).length ≠ 12 * fromLE ((bs.drop 8).take 4) then
    .error .truncatedData
  else .ok (decodeEvents (fromLE ((bs.drop 8).take 4)) (bs.drop 12))

/-- Modelled from the spec: the fixed per-model neuron parameters of
section 3 (threshold, leak rate, reset potential, resting potential,
refractory period) together with the noise shape of the optional
stochastic element of section 4.2, a function of the pseudo-random draw. -/
structure NeuronParams where
  threshold : Rat
  leak : Rat
  reset : Rat
  resting : Rat
  refractory : Nat
  noiseOf : Nat → Rat

/-- Modelled from the spec: the single seeded pseudo-random sequence of
section 4.2, a 64-bit linear congruential generator step. -/
def lcgNext (s : Nat) : Nat :=
  (6364136223846793005 * s + 1442695040888963407) % 2 ^ 64

/-- Modelled from the spec: the per-instance mutable simulation state of
sections 3 and 4.2 — membrane potentials, refractory countdowns, the
delayed-delivery queue of `(due tick, post neuron, weight)` entries and the
pseudo-random generator state. -/
structure SimState where
  pot : Nat → Rat
  refrac : Nat → Nat
  queue : List (Nat × Nat × Rat)
  rng : Nat

/-- Point update of a function `Nat → α`. -/
def updFn (f : Nat → α) (i : Nat) (v : α) : Nat → α :=
  fun j => if j = i then v else f j

/-- All synapses leaving neuron `id`, in index order (spec section 3). -/
def outgoing (net : SNNNetwork) (id : Nat) : List Synapse :=
  net.synapses.filter (fun s => decide (s.pre = id))

/-- Sum of the synaptic contributions scheduled for exactly tick `t` and
post-neuron `id` (spec section 4.2, step 2). -/
def deliveredSum (queue : List (Nat × Nat × Rat)) (t id : Nat) : Rat :=
  ((queue.filter (fun e => decide (e.1 = t ∧ e.2.1 = id))).map
    (fun e => e.2.2)).sum

/-- Modelled from the spec: steps 1 and 2 of the per-neuron transition of
section 4.2 — leak/decay applied to the membrane potential, the seeded
noise draw, and the delivery of contributions scheduled for this tick. -/
def integrate (p : NeuronParams) (s : SimState) (t id : Nat) : Rat :=
  s.pot id * p.leak + p.noiseOf (lcgNext s.rng) + deliveredSum s.queue t id

/-- Modelled from the spec: the full per-neuron transition of section 4.2.
After integration, a neuron at or above threshold and not refractory emits
`SpikeEvent (id, tick converted to nanoseconds)`, resets its potential to
the reset value, starts the refractory countdown and enqueues every
outgoing synapse's weight for tick `t + delay`; otherwise the integrated
potential persists and an active refractory countdown decrements.  One
pseudo-random draw is consumed per neuron per tick, in fixed order. -/
def stepNeuron (net : SNNNetwork) (p : NeuronParams) (dt t id : Nat)
    (s : SimState) : SimState × Option SpikeEvent :=
  let v := integrate p s t id
  let r := lcgNext s.rng
  if p.threshold ≤ v ∧ s.refrac id = 0 then
    ({ pot := updFn s.pot id p.reset,
       refrac := updFn s.refrac id p.refractory,
       queue := s.queue ++ (outgoing net id).map
         (fun syn => (t + syn.delay, syn.post, syn.weight)),
       rng := r }, some ⟨id, t * dt⟩)
  else
    ({ pot := updFn s.pot id v,
       refrac := updFn s.refrac id (s.refrac id - 1),
       queue := s.queue,
       rng := r }, none)

/-- One tick processes every neuron in ascending id order (spec
section 4.2), threading the state and collecting the emitted events. -/
def stepNeurons (net : SNNNetwork) (p : NeuronParams) (dt t : Nat) :
    List Nat → SimState → SimState × List SpikeEvent
  | [], s => (s, [])
  | id :: rest, s =>
      let r1 := stepNeuron net p dt t id s
      let r2 := stepNeurons net p dt t rest r1.1
      (r2.1, r1.2.toList ++ r2.2)

/-- Modelled from the spec: the step transition repeated for `k` ticks
starting at tick `t` (section 4.2), concatenating each tick's events. -/
def stepTicks (net : SNNNetwork) (p : NeuronParams) (dt : Nat) :
    Nat → Nat → SimState → SimState × List SpikeEvent
  | 0, _, s => (s, [])
  | k + 1, t, s =>
      let r1 := stepNeurons net p dt t net.neuronIds s
      let r2 := stepTicks net p dt k (t + 1) r1.1
      (r2.1, r1.2 ++ r2.2)

/-- Modelled from the spec: the initial simulation state of section 4.1 —
resting potentials, zero refractory counters, empty delivery queue, and the
generator seeded by the caller. -/
def initState (p : NeuronParams) (seed : Nat) : SimState :=
  { pot := fun _ => p.resting,
    refrac := fun _ => 0,
    queue := [],
    rng := seed }

/-- Modelled from the spec: the fixed-step run of section 4.2 — rejects
`dt = 0` and a duration that is not an integer multiple of `dt` with
`InvalidDuration` before any stepping occurs, and otherwise executes
`duration / dt` ticks from a fresh initial state, returning the ordered
event trace. -/
def runFixedStep (p : NeuronParams) (net : SNNNetwork)
    (dt duration seed : Nat) : Except HsnnError (List SpikeEvent) :=
  if dt = 0 then .error .invalidDuration
  else if duration % dt ≠ 0 then .error .invalidDuration
  else .ok (stepTicks net p dt (duration / dt) 0 (initState p seed)).2

/-- The run followed by VEVT encoding of the trace. -/
def runFixedStepVevt (p : NeuronParams) (net : SNNNetwork)
    (dt duration seed : Nat) : Except HsnnError (List Nat) :=
  (runFixedStep p net dt duration seed).map vevtEncode

/-- Outcome of the boundary call: status code, the caller's network handle
after the call, and the output buffer when one was produced. -/
structure RunOutcome where
  status : Int
  handle : Option SNNNetwork
  out : Option (List Nat)
deriving DecidableEq

/-- Modelled from the spec: `hsnn_run_fixed_step_vevt_consume` — on success
returns status `0`, sets the output buffer and invalidates (consumes) the
network handle; on failure returns the error's status code and leaves the
outputs and the handle untouched.  An absent (already consumed) handle is
defensively rejected (spec sections 4.2, 6 and 7; header lines 52-60). -/
def hsnn_run_fixed_step_vevt_consume (p : NeuronParams)
    (h : Option SNNNetwork) (dt duration seed : Nat) : RunOutcome :=
  match h with
  | none => { status := statusOf .nullHandle, handle := none, out := none }
  | some net =>
      match runFixedStepVevt p net dt duration seed with
      | .error e => { status := statusOf e, handle := some net, out := none }
      | .ok bytes => { status := 0, handle := none, out := some bytes }

/-- Weight triple used for snapshot/import operations (header lines 20-25):
(pre id, post id, weight). -/
structure HSNN_WeightTriple where
  pre : Nat
  post : Nat
  weight : Rat
deriving DecidableEq

/-- Modelled from the spec: `hsnn_network_snapshot_weights` exports the
full set of weight triples in the synapse index order (by source id then
insertion order); read-only, no mutation (spec section 4.4). -/
def hsnn_network_snapshot_weights (net : SNNNetwork) : List HSNN_WeightTriple :=
  net.synapses.map (fun s => ⟨s.pre, s.post, s.weight⟩)

/-- Overwrite the weight of the first synapse exactly matching
`(u.pre, u.post)`; report whether a match was found (spec section 4.4). -/
def applyOne (syns : List Synapse) (u : HSNN_WeightTriple) :
    List Synapse × Bool :=
  match syns with
  | [] => ([], false)
  | s :: rest =>
      if s.pre = u.pre ∧ s.post = u.post then
        ({ s with weight := u.weight } :: rest, true)
      else
        let r := applyOne rest u
        (s :: r.1, r.2)

/-- Apply a batch of triples in order, counting the ones that matched. -/
def applyUpdates (syns : List Synapse) :
    List HSNN_WeightTriple → List Synapse × Nat
  | [] => (syns, 0)
  | u :: us =>
      let r1 := applyOne syns u
      let r2 := applyUpdates r1.1 us
      (r2.1, (if r1.2 then 1 else 0) + r2.2)

/-- Modelled from the spec: `hsnn_network_apply_weight_updates` — each
triple updates the synapse matching its `(pre, post)` pair if one exists
and is silently skipped otherwise; returns the updated network and the
count of triples actually applied (spec section 4.4; header lines 68-74). -/
def hsnn_network_apply_weight_updates (net : SNNNetwork)
    (updates : List HSNN_WeightTriple) : SNNNetwork × Nat :=
  let r := applyUpdates net.synapses updates
  ({ net with synapses := r.1 }, r.2)

/-- Does some synapse of the list match the triple's `(pre, post)` pair? -/
def matchesb (syns : List Synapse) (u : HSNN_WeightTriple) : Bool :=
  syns.any (fun s => decide (s.pre = u.pre ∧ s.post = u.post))

/-- The immutable skeleton of a synapse: everything but the weight. -/
def skel (s : Synapse) : Nat × Nat × Nat :=
  (s.pre, s.post, s.delay)

/-- Ordering of spike events required of a trace: non-decreasing
timestamps, ties broken by non-decreasing neuron id. -/
def evLe (a b : SpikeEvent) : Prop :=
  a.ts < b.ts ∨ (a.ts = b.ts ∧ a.nid ≤ b.nid)

/-- A concrete parameter set for witnesses: threshold 1, no decay, reset
and resting potential 0, refractory period 2, no noise. -/
def exParams : NeuronParams :=
  { threshold := 1, leak := 1, reset := 0, resting := 0, refractory := 2,
    noiseOf := fun _ => 0 }

/-- A concrete two-neuron network with one synapse 0 → 1. -/
def exNet : SNNNetwork :=
  { neuronIds := [0, 1], synapses := [⟨0, 1, 1, 1⟩] }

/-- A concrete network with two parallel synapses on the pair (0, 1)
carrying distinct weights. -/
def exNetDup : SNNNetwork :=
  { neuronIds := [0, 1], synapses := [⟨0, 1, 2, 1⟩, ⟨0, 1, 3, 1⟩] }

/-- A concrete builder draft: neurons [0, 3), one synapse 0 → 1. -/
def exBuilder : NetworkBuilder :=
  { ranges := [(0, 3)], synapses := [⟨0, 1, 1, 1⟩] }

/-- The network `hsnn_network_build` produces from `exBuilder`. -/
def exBuiltNet : SNNNetwork :=
  { neuronIds := [0, 1, 2], synapses := [⟨0, 1, 1, 1⟩] }

/-- A concrete builder draft with the single range [0, 5). -/
def exBuilder5 : NetworkBuilder :=
  { ranges := [(0, 5)], synapses := [] }

/-- A concrete simulation state: all potentials at 5, nobody refractory,
empty delivery queue. -/
def exState : SimState :=
  { pot := fun _ => 5, refrac := fun _ => 0, queue := [], rng := 0 }

/-- A concrete update batch: one matched triple and one unmatched. -/
def exUpdates : List HSNN_WeightTriple := [⟨0, 1, 7⟩, ⟨5, 5, 9⟩]

theorem declaredb_append (rs : List (Nat × Nat)) (r : Nat × Nat) (id : Nat) :
    declaredb (rs ++ [r]) id =
      (declaredb rs id || decide (r.1 ≤ id ∧ id < r.1 + r.2)) := by
  simp [declaredb, List.any_append]

/-- C5: `add_neuron_range(start, count)` fails with `InvalidRange` when
`count = 0`, fails with `RangeOverlap` when some id of
`[start, start+count)` is already declared, and otherwise succeeds and
extends the declared-id set by exactly the ids `[start, start+count)`. -/
theorem c5_add_neuron_range_spec (b : NetworkBuilder) (start count : Nat) :
    (count = 0 →
      hsnn_network_builder_add_neuron_range b start count = .error .invalidRange)
  ∧ (count ≠ 0 →
      (∃ id, start ≤ id ∧ id < start + count ∧ declaredb b.ranges id = true) →
      hsnn_network_builder_add_neuron_range b start count = .error .rangeOverlap)
  ∧ (count ≠ 0 →
      (∀ id, start ≤ id → id < start + count → declaredb b.ranges id = false) →
      ∃ b', hsnn_network_builder_add_neuron_range b start count = .ok b' ∧
        b'.synapses = b.synapses ∧
        ∀ id, declaredb b'.ranges id =
          (declaredb b.ranges id || decide (start ≤ id ∧ id < start + count))) := by
  refine ⟨fun hc => ?_, fun hc hover => ?_, fun hc hfree => ?_⟩
  · simp [hsnn_network_builder_add_neuron_range, hc]
  · obtain ⟨id, h1, h2, h3⟩ := hover
    unfold hsnn_network_builder_add_neuron_range
    rw [if_neg hc, if_pos]
    exact List.any_eq_true.2 ⟨id, List.mem_range'_1.2 ⟨h1, h2⟩, h3⟩
  · unfold hsnn_network_builder_add_neuron_range
    rw [if_neg hc, if_neg]
    · refine ⟨_, rfl, rfl, fun id => ?_⟩
      exact declaredb_append b.ranges (start, count) id
    · intro hany
      obtain ⟨id, hmem, hdecl⟩ := List.any_eq_true.1 hany
      obtain ⟨h1, h2⟩ := List.mem_range'_1.1 hmem
      rw [hfree id h1 h2] at hdecl
      exact Bool.false_ne_true hdecl

/-- C5 witness: the spec's own example — after declaring `[0, 5)`, adding
the range `[3, 5)` fails with `RangeOverlap`. -/
theorem c5_witness :
    hsnn_network_builder_add_neuron_range exBuilder5 3 2 = .error .rangeOverlap :=
  (c5_add_neuron_range_spec exBuilder5 3 2).2.1 (by decide)
    ⟨3, by decide, by decide, by decide⟩

/-- C4: when every pending synapse has both endpoints declared, build
succeeds and the network holds exactly as many synapses as were added;
when some pending synapse has an undeclared endpoint, build fails with
`UnknownNeuron`. -/
theorem c4_build_spec (b : NetworkBuilder) :
    ((∀ s ∈ b.synapses,
        declaredb b.ranges s.pre = true ∧ declaredb b.ranges s.post = true) →
      ∃ net, hsnn_network_build b = .ok net ∧
        net.synapses.length = b.synapses.length)
  ∧ ((∃ s ∈ b.synapses,
        declaredb b.ranges s.pre = false ∨ declaredb b.ranges s.post = false) →
      ∃ id, hsnn_network_build b = .error (.unknownNeuron id)) := by
  constructor
  · intro h
    have hf : b.synapses.find?
        (fun s => !(declaredb b.ranges s.pre && declaredb b.ranges s.post)) =
          none := by
      rw [List.find?_eq_none]
      intro s hs
      obtain ⟨h1, h2⟩ := h s hs
      simp [h1, h2]
    refine ⟨buildNet b, ?_, ?_⟩
    · unfold hsnn_network_build
      rw [hf]
    · simp [buildNet, List.length_mergeSort]
  · rintro ⟨s, hs, hbad⟩
    cases hf : b.synapses.find?
        (fun s => !(declaredb b.ranges s.pre && declaredb b.ranges s.post)) with
    | none =>
        exfalso
        have := List.find?_eq_none.1 hf s hs
        rcases hbad with h | h <;> simp [h] at this
    | some s' =>
        refine ⟨if declaredb b.ranges s'.pre then s'.post else s'.pre, ?_⟩
        unfold hsnn_network_build
        rw [hf]

/-- C4 witness: building the concrete draft `exBuilder` (all endpoints
declared) succeeds with exactly one synapse. -/
theorem c4_witness :
    ∃ net, hsnn_network_build exBuilder = .ok net ∧
      net.synapses.length = exBuilder.synapses.length :=
  (c4_build_spec exBuilder).1 (by decide)

/-- C1: two runs started from identical initial network state with the
same `dt`, `duration` and `seed` return byte-for-byte identical encoded
VEVT event traces. -/
theorem c1_run_determinism (p : NeuronParams) (n1 n2 : SNNNetwork)
    (dt1 dt2 dur1 dur2 seed1 seed2 : Nat)
    (hn : n1 = n2) (hdt : dt1 = dt2) (hdur : dur1 = dur2)
    (hseed : seed1 = seed2) :
    runFixedStepVevt p n1 dt1 dur1 seed1 =
      runFixedStepVevt p n2 dt2 dur2 seed2 := by
  subst hn hdt hdur hseed
  rfl

/-- C1 witness: the determinism theorem applied at the concrete network
`exNet` with `dt = 1`, `duration = 2`, `seed = 42`. -/
theorem c1_witness :
    runFixedStepVevt exParams exNet 1 2 42 =
      runFixedStepVevt exParams exNet 1 2 42 :=
  c1_run_determinism exParams exNet exNet 1 1 2 2 42 42 rfl rfl rfl rfl

/-- C6: a run called with `dt = 0` or with a duration that is not an
integer multiple of `dt` fails with `InvalidDuration` before any stepping
occurs (the pure run returns the error directly from the pre-check),
leaves the outputs untouched and neither mutates nor consumes the
network handle. -/
theorem c6_invalid_duration (p : NeuronParams) (net : SNNNetwork)
    (dt duration seed : Nat) (h : dt = 0 ∨ duration % dt ≠ 0) :
    hsnn_run_fixed_step_vevt_consume p (some net) dt duration seed =
      { status := statusOf .invalidDuration, handle := some net, out := none }
  ∧ runFixedStep p net dt duration seed = .error .invalidDuration := by
  have herr : runFixedStep p net dt duration seed = .error .invalidDuration := by
    unfold runFixedStep
    rcases h with h | h
    · rw [if_pos h]
    · by_cases hdt : dt = 0
      · rw [if_pos hdt]
      · rw [if_neg hdt, if_pos h]
  refine ⟨?_, herr⟩
  simp [hsnn_run_fixed_step_vevt_consume, runFixedStepVevt, herr, Except.map]

/-- C6 witness: the pre-check theorem applied at `dt = 0` on the concrete
network `exNet`. -/
theorem c6_witness :
    hsnn_run_fixed_step_vevt_consume exParams (some exNet) 0 5 42 =
      { status := statusOf .invalidDuration, handle := some exNet,
        out := none } :=
  (c6_invalid_duration exParams exNet 0 5 42 (Or.inl rfl)).1

/-- C10: every failing boundary call (non-zero status) leaves the output
parameters untouched and does not invalidate the caller's network
handle. -/
theorem c10_failure_preserves (p : NeuronParams) (h : Option SNNNetwork)
    (dt duration seed : Nat)
    (hfail : (hsnn_run_fixed_step_vevt_consume p h dt duration seed).status ≠ 0) :
    (hsnn_run_fixed_step_vevt_consume p h dt duration seed).out = none ∧
    (hsnn_run_fixed_step_vevt_consume p h dt duration seed).handle = h := by
  cases h with
  | none => simp [hsnn_run_fixed_step_vevt_consume]
  | some net =>
      cases hr : runFixedStepVevt p net dt duration seed with
      | error e => simp [hsnn_run_fixed_step_vevt_consume, hr]
      | ok bytes =>
          exfalso
          apply hfail
          simp [hsnn_run_fixed_step_vevt_consume, hr]

/-- C10 witness: the failure-preservation theorem applied to a call on an
absent (already consumed) handle, whose status is the non-zero
`nullHandle` code. -/
theorem c10_witness :
    (hsnn_run_fixed_step_vevt_consume exParams none 0 5 42).out = none ∧
    (hsnn_run_fixed_step_vevt_consume exParams none 0 5 42).handle = none :=
  c10_failure_preserves exParams none 0 5 42 (by decide)

theorem length_toLE (k v : Nat) : (toLE k v).length = k := by
  induction k generalizing v with
  | zero => rfl
  | succ k ih => simp [toLE, ih]

theorem fromLE_toLE (k v : Nat) : fromLE (toLE k v) = v % 256 ^ k := by
  induction k generalizing v with
  | zero => simp [toLE, fromLE, Nat.mod_one]
  | succ k ih =>
      simp only [toLE, fromLE, ih]
      rw [Nat.pow_succ, Nat.mul_comm (256 ^ k) 256, Nat.mod_mul]

theorem fromLE_toLE_of_lt {k v : Nat} (h : v < 256 ^ k) :
    fromLE (toLE k v) = v := by
  rw [fromLE_toLE, Nat.mod_eq_of_lt h]

theorem length_encodeEvent (e : SpikeEvent) : (encodeEvent e).length = 12 := by
  simp [encodeEvent, length_toLE]

theorem length_encodeEvents (tr : List SpikeEvent) :
    (encodeEvents tr).length = 12 * tr.length := by
  induction tr with
  | nil => rfl
  | cons e tr ih =>
      simp [encodeEvents, length_encodeEvent, ih, Nat.mul_succ, Nat.add_comm]

theorem decodeEvents_encodeEvents (tr : List SpikeEvent) (rest : List Nat)
    (h : ∀ e ∈ tr, e.nid < 2 ^ 32 ∧ e.ts < 2 ^ 64) :
    decodeEvents tr.length (encodeEvents tr ++ rest) = tr := by
  induction tr with
  | nil => rfl
  | cons e tr ih =>
      obtain ⟨h1, h2⟩ := h e (List.mem_cons_self e tr)
      have h1' : e.nid < 256 ^ 4 := by
        rw [show (256 : Nat) ^ 4 = 2 ^ 32 by norm_num]
        exact h1
      have h2' : e.ts < 256 ^ 8 := by
        rw [show (256 : Nat) ^ 8 = 2 ^ 64 by norm_num]
        exact h2
      have hb : encodeEvents (e :: tr) ++ rest =
          toLE 4 e.nid ++ (toLE 8 e.ts ++ (encodeEvents tr ++ rest)) := by
        simp [encodeEvents, encodeEvent, List.append_assoc]
      have htake4 : (encodeEvents (e :: tr) ++ rest).take 4 = toLE 4 e.nid := by
        rw [hb]
        exact List.take_left' (length_toLE 4 e.nid)
      have hdrop4 : (encodeEvents (e :: tr) ++ rest).drop 4 =
          toLE 8 e.ts ++ (encodeEvents tr ++ rest) := by
        rw [hb]
        exact List.drop_left' (length_toLE 4 e.nid)
      have htake8 : ((encodeEvents (e :: tr) ++ rest).drop 4).take 8 =
          toLE 8 e.ts := by
        rw [hdrop4]
        exact List.take_left' (length_toLE 8 e.ts)
      have hdrop12 : (encodeEvents (e :: tr) ++ rest).drop 12 =
          encodeEvents tr ++ rest := by
        have hgrp : encodeEvents (e :: tr) ++ rest =
            (toLE 4 e.nid ++ toLE 8 e.ts) ++ (encodeEvents tr ++ rest) := by
          simp [encodeEvents, encodeEvent, List.append_assoc]
        rw [hgrp]
        apply List.drop_left'
        simp [List.length_append, length_toLE]
      show decodeEvents (tr.length + 1) (encodeEvents (e :: tr) ++ rest) =
        e :: tr
      simp only [decodeEvents]
      rw [htake4, htake8, hdrop12, fromLE_toLE_of_lt h1', fromLE_toLE_of_lt h2',
        ih (fun x hx => h x (List.mem_cons_of_mem e hx))]

/-- C2: decoding the VEVT encoding of any valid trace (neuron ids fitting
4 bytes, timestamps fitting 8 bytes, count fitting the 4-byte header
field), including the empty trace, yields the original trace exactly. -/
theorem c2_codec_roundtrip (tr : List SpikeEvent)
    (hbound : ∀ e ∈ tr, e.nid < 2 ^ 32 ∧ e.ts < 2 ^ 64)
    (hcount : tr.length < 2 ^ 32) :
    vevtDecode (vevtEncode tr) = .ok tr := by
  have hcount' : tr.length < 256 ^ 4 := by
    rw [show (256 : Nat) ^ 4 = 2 ^ 32 by norm_num]
    exact hcount
  have hlen : (vevtEncode tr).length = 12 + 12 * tr.length := by
    simp [vevtEncode, vevtMagic, List.length_append, length_toLE,
      length_encodeEvents]
    omega
  have hsplit : vevtEncode tr = vevtMagic ++
      (toLE 4 vevtVersion ++ (toLE 4 tr.length ++ encodeEvents tr)) := by
    simp [vevtEncode, List.append_assoc]
  have htake4 : (vevtEncode tr).take 4 = vevtMagic := by
    rw [hsplit]
    exact List.take_left' rfl
  have hdrop4 : (vevtEncode tr).drop 4 =
      toLE 4 vevtVersion ++ (toLE 4 tr.length ++ encodeEvents tr) := by
    rw [hsplit]
    exact List.drop_left' rfl
  have hver : ((vevtEncode tr).drop 4).take 4 = toLE 4 vevtVersion := by
    rw [hdrop4]
    exact List.take_left' (length_toLE 4 vevtVersion)
  have hdrop8 : (vevtEncode tr).drop 8 =
      toLE 4 tr.length ++ encodeEvents tr := by
    have hgrp : vevtEncode tr = (vevtMagic ++ toLE 4 vevtVersion) ++
        (toLE 4 tr.length ++ encodeEvents tr) := by
      simp [vevtEncode, List.append_assoc]
    rw [hgrp]
    apply List.drop_left'
    simp [List.length_append, length_toLE, vevtMagic]
  have hcnt : ((vevtEncode tr).drop 8).take 4 = toLE 4 tr.length := by
    rw [hdrop8]
    exact List.take_left' (length_toLE 4 tr.length)
  have hdrop12 : (vevtEncode tr).drop 12 = encodeEvents tr := by
    have hgrp : vevtEncode tr =
        ((vevtMagic ++ toLE 4 vevtVersion) ++ toLE 4 tr.length) ++
          encodeEvents tr := by
      simp [vevtEncode, List.append_assoc]
    rw [hgrp]
    apply List.drop_left'
    simp [List.length_append, length_toLE, vevtMagic]
  unfold vevtDecode
  rw [hlen, if_neg (by omega), htake4, if_neg (by simp), hver,
    if_neg (by simp), hcnt, hdrop12, fromLE_toLE_of_lt hcount',
    length_encodeEvents, if_neg (by simp)]
  rw [← List.append_nil (encodeEvents tr),
    decodeEvents_encodeEvents tr [] hbound]

/-- C2 witness: the round-trip theorem applied to a concrete two-event
trace. -/
theorem c2_witness :
    vevtDecode (vevtEncode [⟨1, 5⟩, ⟨2, 5⟩]) = .ok [⟨1, 5⟩, ⟨2, 5⟩] :=
  c2_codec_roundtrip [⟨1, 5⟩, ⟨2, 5⟩] (by decide) (by decide)

/-- C7: during a step, a neuron whose integrated potential (after leak,
noise and this tick's deliveries) is at or above threshold and which is
not refractory emits `SpikeEvent (id, tick * dt)` nanoseconds, has its
potential reset to the reset value, starts the refractory countdown, and
enqueues every outgoing synapse's weight for delivery at tick
`t + delay`. -/
theorem c7_spike_step (net : SNNNetwork) (p : NeuronParams)
    (dt t id : Nat) (s : SimState)
    (hv : p.threshold ≤ integrate p s t id) (hr : s.refrac id = 0) :
    (stepNeuron net p dt t id s).2 = some ⟨id, t * dt⟩ ∧
    (stepNeuron net p dt t id s).1.pot id = p.reset ∧
    (stepNeuron net p dt t id s).1.refrac id = p.refractory ∧
    (stepNeuron net p dt t id s).1.queue = s.queue ++
      (outgoing net id).map (fun syn => (t + syn.delay, syn.post, syn.weight)) := by
  unfold stepNeuron
  rw [if_pos ⟨hv, hr⟩]
  simp [updFn]

/-- C7 witness: at potential 5 against threshold 1 with no refractory
countdown, neuron 0 of `exNet` spikes at tick 0. -/
theorem c7_witness :
    (stepNeuron exNet exParams 1 0 0 exState).2 = some ⟨0, 0⟩ :=
  (c7_spike_step exNet exParams 1 0 0 exState
    (by norm_num [integrate, deliveredSum, exParams, exState, lcgNext]) rfl).1

theorem applyOne_skel (syns : List Synapse) (u : HSNN_WeightTriple) :
    ((applyOne syns u).1).map skel = syns.map skel := by
  induction syns with
  | nil => rfl
  | cons s rest ih =>
      by_cases h : s.pre = u.pre ∧ s.post = u.post
      · simp [applyOne, h, skel]
      · simp [applyOne, h, skel, ih]

theorem applyOne_snd (syns : List Synapse) (u : HSNN_WeightTriple) :
    (applyOne syns u).2 = matchesb syns u := by
  induction syns with
  | nil => rfl
  | cons s rest ih =>
      by_cases h : s.pre = u.pre ∧ s.post = u.post
      · simp [applyOne, matchesb, h]
      · simp [applyOne, matchesb, h, ih]

theorem applyOne_of_not_matches (syns : List Synapse) (u : HSNN_WeightTriple)
    (h : matchesb syns u = false) : applyOne syns u = (syns, false) := by
  induction syns with
  | nil => rfl
  | cons s rest ih =>
      have hcons : (decide (s.pre = u.pre ∧ s.post = u.post) ||
          matchesb rest u) = false := h
      have h1 : decide (s.pre = u.pre ∧ s.post = u.post) = false := by
        cases hd : decide (s.pre = u.pre ∧ s.post = u.post)
        · rfl
        · rw [hd] at hcons
          simp at hcons
      have h2 : matchesb rest u = false := by
        cases hd : matchesb rest u
        · rfl
        · rw [hd] at hcons
          simp at hcons
      have hs : ¬(s.pre = u.pre ∧ s.post = u.post) := of_decide_eq_false h1
      simp [applyOne, hs, ih h2]

theorem matchesb_eq_skel (syns : List Synapse) (u : HSNN_WeightTriple) :
    matchesb syns u =
      (syns.map skel).any (fun k => decide (k.1 = u.pre ∧ k.2.1 = u.post)) := by
  induction syns with
  | nil => rfl
  | cons s rest ih =>
      have hstep : matchesb (s :: rest) u =
          (decide (s.pre = u.pre ∧ s.post = u.post) || matchesb rest u) := rfl
      rw [hstep, ih]
      rfl

theorem matchesb_congr {syns1 syns2 : List Synapse} (u : HSNN_WeightTriple)
    (h : syns1.map skel = syns2.map skel) :
    matchesb syns1 u = matchesb syns2 u := by
  rw [matchesb_eq_skel, matchesb_eq_skel, h]

theorem applyUpdates_skel (us : List HSNN_WeightTriple) (syns : List Synapse) :
    ((applyUpdates syns us).1).map skel = syns.map skel := by
  induction us generalizing syns with
  | nil => rfl
  | cons u us ih =>
      calc ((applyUpdates syns (u :: us)).1).map skel
          = ((applyUpdates (applyOne syns u).1 us).1).map skel := rfl
        _ = ((applyOne syns u).1).map skel := ih _
        _ = syns.map skel := applyOne_skel syns u

theorem applyUpdates_snd (us : List HSNN_WeightTriple) (syns : List Synapse) :
    (applyUpdates syns us).2 = us.countP (fun u => matchesb syns u) := by
  induction us generalizing syns with
  | nil => rfl
  | cons u us ih =>
      have hstep : (applyUpdates syns (u :: us)).2 =
          (if matchesb syns u then 1 else 0) +
            (applyUpdates (applyOne syns u).1 us).2 := by
        simp [applyUpdates, applyOne_snd]
      rw [hstep, ih]
      have hcong : us.countP (fun v => matchesb (applyOne syns u).1 v) =
          us.countP (fun v => matchesb syns v) :=
        List.countP_congr (fun v _ => by
          rw [matchesb_congr v (applyOne_skel syns u)])
      rw [hcong, List.countP_cons]
      omega

theorem applyUpdates_filter (us : List HSNN_WeightTriple)
    (syns : List Synapse) :
    applyUpdates syns us =
      applyUpdates syns (us.filter (fun u => matchesb syns u)) := by
  induction us generalizing syns with
  | nil => rfl
  | cons u us ih =>
      by_cases hm : matchesb syns u = true
      · rw [List.filter_cons_of_pos hm]
        have h1 : applyUpdates syns (u :: us) =
            ((applyUpdates (applyOne syns u).1 us).1,
             (if (applyOne syns u).2 then 1 else 0) +
               (applyUpdates (applyOne syns u).1 us).2) := rfl
        have h2 : applyUpdates syns
              (u :: us.filter (fun v => matchesb syns v)) =
            ((applyUpdates (applyOne syns u).1
                (us.filter (fun v => matchesb syns v))).1,
             (if (applyOne syns u).2 then 1 else 0) +
               (applyUpdates (applyOne syns u).1
                 (us.filter (fun v => matchesb syns v))).2) := rfl
        have hfc : us.filter (fun v => matchesb syns v) =
            us.filter (fun v => matchesb (applyOne syns u).1 v) :=
          List.filter_congr (fun v _ => by
            rw [matchesb_congr v (applyOne_skel syns u)])
        rw [h1, h2, hfc, ← ih]
      · have hm' : matchesb syns u = false := by
          cases h : matchesb syns u
          · rfl
          · exact absurd h hm
        rw [List.filter_cons_of_neg (by simp [hm'])]
        have h1 : applyUpdates syns (u :: us) =
            ((applyUpdates (applyOne syns u).1 us).1,
             (if (applyOne syns u).2 then 1 else 0) +
               (applyUpdates (applyOne syns u).1 us).2) := rfl
        rw [h1, applyOne_of_not_matches syns u hm', ← ih]
        simp [applyOne_snd, hm']

theorem countP_lt_of_exists_false {p : α → Bool} {l : List α}
    (h : ∃ x ∈ l, p x = false) : l.countP p < l.length := by
  induction l with
  | nil => simp at h
  | cons a l ih =>
      obtain ⟨x, hx, hpx⟩ := h
      rw [List.countP_cons]
      rcases List.mem_cons.1 hx with rfl | hxl
      · have hif : (if (false : Bool) = true then 1 else 0) = 0 := rfl
        rw [hpx, hif]
        simp only [List.length_cons]
        have := List.countP_le_length (p := p) (l := l)
        omega
      · have := ih ⟨x, hxl, hpx⟩
        have hle : (if p a then 1 else 0) ≤ 1 := by
          by_cases hpa : p a <;> simp [hpa]
        simp only [List.length_cons]
        omega

/-- C8: weight apply never fails on unmatched (pre, post) pairs — each
unmatched triple is silently skipped, the synapse skeleton (existence,
endpoints, delays) and the synapse count are unchanged, the applied count
equals the number of matching triples, unmatched triples contribute
nothing (filtering them away yields the identical outcome), and a batch
containing an unmatched triple reports an applied count strictly below
the batch size. -/
theorem c8_apply_updates_spec (net : SNNNetwork)
    (us : List HSNN_WeightTriple) :
    ((hsnn_network_apply_weight_updates net us).1.synapses.map skel =
      net.synapses.map skel)
  ∧ ((hsnn_network_apply_weight_updates net us).1.synapses.length =
      net.synapses.length)
  ∧ ((hsnn_network_apply_weight_updates net us).2 =
      us.countP (fun u => matchesb net.synapses u))
  ∧ (hsnn_network_apply_weight_updates net us =
      hsnn_network_apply_weight_updates net
        (us.filter (fun u => matchesb net.synapses u)))
  ∧ ((∃ u ∈ us, matchesb net.synapses u = false) →
      (hsnn_network_apply_weight_updates net us).2 < us.length) := by
  refine ⟨?_, ?_, ?_, ?_, ?_⟩
  · exact applyUpdates_skel us net.synapses
  · have h := congrArg List.length (applyUpdates_skel us net.synapses)
    simpa [List.length_map] using h
  · exact applyUpdates_snd us net.synapses
  · simp only [hsnn_network_apply_weight_updates]
    rw [← applyUpdates_filter]
  · intro hex
    have h := applyUpdates_snd us net.synapses
    simp only [hsnn_network_apply_weight_updates]
    rw [h]
    exact countP_lt_of_exists_false hex

/-- C8 witness: applying a batch with one matched and one unmatched triple
to `exNet` reports an applied count strictly below the batch size. -/
theorem c8_witness :
    (hsnn_network_apply_weight_updates exNet exUpdates).2 <
      exUpdates.length :=
  (c8_apply_updates_spec exNet exUpdates).2.2.2.2
    ⟨⟨5, 5, 9⟩, by decide, by decide⟩

/-- C9 counterexample: on a network with two parallel synapses on the same
(pre, post) pair carrying different weights, applying the snapshot taken
from the network back onto it is not a no-op — both triples target the
first matching synapse, so its weight ends up overwritten by the second
triple's value. -/
theorem c9_counterexample :
    (hsnn_network_apply_weight_updates exNetDup
      (hsnn_network_snapshot_weights exNetDup)).1 ≠ exNetDup := by
  decide

theorem applyUpdates_cons_of_no_match (s : Synapse)
    (us : List HSNN_WeightTriple) :
    ∀ l : List Synapse, (∀ u ∈ us, ¬(s.pre = u.pre ∧ s.post = u.post)) →
      applyUpdates (s :: l) us =
        (s :: (applyUpdates l us).1, (applyUpdates l us).2) := by
  induction us with
  | nil =>
      intro l _
      rfl
  | cons u us ih =>
      intro l h
      have hs := h u (List.mem_cons_self u us)
      have hstep : applyOne (s :: l) u =
          (s :: (applyOne l u).1, (applyOne l u).2) := by
        simp [applyOne, hs]
      show ((applyUpdates (applyOne (s :: l) u).1 us).1,
        (if (applyOne (s :: l) u).2 then 1 else 0) +
          (applyUpdates (applyOne (s :: l) u).1 us).2) = _
      rw [hstep]
      rw [ih ((applyOne l u).1) (fun v hv => h v (List.mem_cons_of_mem u hv))]
      rfl

theorem snapshot_apply_of_distinct (syns : List Synapse)
    (h : syns.Pairwise (fun a b => ¬(a.pre = b.pre ∧ a.post = b.post))) :
    applyUpdates syns (syns.map (fun s => (⟨s.pre, s.post, s.weight⟩ :
      HSNN_WeightTriple))) = (syns, syns.length) := by
  induction syns with
  | nil => rfl
  | cons s rest ih =>
      rw [List.pairwise_cons] at h
      obtain ⟨hs, hrest⟩ := h
      have h1 : applyOne (s :: rest)
          (⟨s.pre, s.post, s.weight⟩ : HSNN_WeightTriple) =
            (s :: rest, true) := by
        simp [applyOne]
      show ((applyUpdates (applyOne (s :: rest)
          (⟨s.pre, s.post, s.weight⟩ : HSNN_WeightTriple)).1
            (rest.map (fun x => (⟨x.pre, x.post, x.weight⟩ :
              HSNN_WeightTriple)))).1,
        (if (applyOne (s :: rest)
            (⟨s.pre, s.post, s.weight⟩ : HSNN_WeightTriple)).2
          then 1 else 0) +
          (applyUpdates (applyOne (s :: rest)
            (⟨s.pre, s.post, s.weight⟩ : HSNN_WeightTriple)).1
              (rest.map (fun x => (⟨x.pre, x.post, x.weight⟩ :
                HSNN_WeightTriple)))).2) = _
      rw [h1]
      have hnm : ∀ u ∈ rest.map (fun x => (⟨x.pre, x.post, x.weight⟩ :
          HSNN_WeightTriple)), ¬(s.pre = u.pre ∧ s.post = u.post) := by
        intro u hu
        obtain ⟨x, hx, rfl⟩ := List.mem_map.1 hu
        exact hs x hx
      rw [applyUpdates_cons_of_no_match s _ rest hnm, ih hrest]
      simp [List.length_cons, Nat.add_comm]

/-- C9 amended: for every network whose synapses occupy pairwise-distinct
(pre, post) pairs, applying the weight snapshot taken from it back onto
it (unchanged in between) is a no-op — the network, in particular every
synapse weight, is left identical, with every triple counted as applied;
the snapshot itself performs no mutation.  (For networks with parallel
synapses on one pair carrying different weights the original claim fails,
see the counterexample.) -/
theorem c9_snapshot_apply_noop (net : SNNNetwork)
    (h : net.synapses.Pairwise (fun a b => ¬(a.pre = b.pre ∧ a.post = b.post))) :
    hsnn_network_apply_weight_updates net
      (hsnn_network_snapshot_weights net) = (net, net.synapses.length) := by
  have hmain := snapshot_apply_of_distinct net.synapses h
  simp only [hsnn_network_apply_weight_updates, hsnn_network_snapshot_weights]
  rw [hmain]

/-- C9 witness: the amended no-op theorem applied to `exNet`, whose single
synapse trivially occupies a distinct pair. -/
theorem c9_witness :
    hsnn_network_apply_weight_updates exNet
      (hsnn_network_snapshot_weights exNet) = (exNet, 1) :=
  c9_snapshot_apply_noop exNet (by decide)

theorem stepNeuron_snd (net : SNNNetwork) (p : NeuronParams)
    (dt t id : Nat) (s : SimState) :
    (stepNeuron net p dt t id s).2 = none ∨
    (stepNeuron net p dt t id s).2 = some ⟨id, t * dt⟩ := by
  by_cases hc : p.threshold ≤ integrate p s t id ∧ s.refrac id = 0
  · right
    simp only [stepNeuron]
    rw [if_pos hc]
  · left
    simp only [stepNeuron]
    rw [if_neg hc]

theorem stepNeurons_nid_sublist (net : SNNNetwork) (p : NeuronParams)
    (dt t : Nat) :
    ∀ (ids : List Nat) (s : SimState),
      ((stepNeurons net p dt t ids s).2.map SpikeEvent.nid).Sublist ids := by
  intro ids
  induction ids with
  | nil =>
      intro s
      simp [stepNeurons]
  | cons id rest ih =>
      intro s
      have hunf : (stepNeurons net p dt t (id :: rest) s).2 =
          (stepNeuron net p dt t id s).2.toList ++
            (stepNeurons net p dt t rest (stepNeuron net p dt t id s).1).2 :=
        rfl
      rw [hunf, List.map_append]
      rcases stepNeuron_snd net p dt t id s with h | h
      · rw [h]
        simp only [Option.toList_none, List.map_nil, List.nil_append]
        exact (ih _).cons id
      · rw [h]
        simp only [Option.toList_some, List.map_cons, List.map_nil,
          List.singleton_append]
        exact (ih _).cons₂ id

theorem stepNeurons_ts (net : SNNNetwork) (p : NeuronParams) (dt t : Nat) :
    ∀ (ids : List Nat) (s : SimState),
      ∀ e ∈ (stepNeurons net p dt t ids s).2, e.ts = t * dt := by
  intro ids
  induction ids with
  | nil =>
      intro s e he
      simp [stepNeurons] at he
  | cons id rest ih =>
      intro s e he
      have hunf : (stepNeurons net p dt t (id :: rest) s).2 =
          (stepNeuron net p dt t id s).2.toList ++
            (stepNeurons net p dt t rest (stepNeuron net p dt t id s).1).2 :=
        rfl
      rw [hunf] at he
      rcases List.mem_append.1 he with h | h
      · rcases stepNeuron_snd net p dt t id s with hn | hn <;> rw [hn] at h
        · simp at h
        · simp at h
          rw [h]
      · exact ih _ e h

theorem stepNeurons_sorted (net : SNNNetwork) (p : NeuronParams)
    (dt t : Nat) (ids : List Nat) (s : SimState)
    (hids : ids.Pairwise (· < ·)) :
    (stepNeurons net p dt t ids s).2.Pairwise
      (fun a b => a.nid < b.nid) :=
  List.pairwise_map.1
    (List.Pairwise.sublist (stepNeurons_nid_sublist net p dt t ids s) hids)

theorem stepTicks_ts_lower (net : SNNNetwork) (p : NeuronParams) (dt : Nat) :
    ∀ (k t : Nat) (s : SimState),
      ∀ e ∈ (stepTicks net p dt k t s).2, t * dt ≤ e.ts := by
  intro k
  induction k with
  | zero =>
      intro t s e he
      simp [stepTicks] at he
  | succ k ih =>
      intro t s e he
      have hunf : (stepTicks net p dt (k + 1) t s).2 =
          (stepNeurons net p dt t net.neuronIds s).2 ++
            (stepTicks net p dt k (t + 1)
              (stepNeurons net p dt t net.neuronIds s).1).2 := rfl
      rw [hunf] at he
      rcases List.mem_append.1 he with h | h
      · rw [stepNeurons_ts net p dt t net.neuronIds s e h]
      · have := ih (t + 1) _ e h
        calc t * dt ≤ (t + 1) * dt :=
              Nat.mul_le_mul_right dt (Nat.le_succ t)
          _ ≤ e.ts := this

theorem stepTicks_sorted (net : SNNNetwork) (p : NeuronParams) (dt : Nat)
    (hdt : 0 < dt) (hids : net.neuronIds.Pairwise (· < ·)) :
    ∀ (k t : Nat) (s : SimState),
      (stepTicks net p dt k t s).2.Pairwise evLe := by
  intro k
  induction k with
  | zero =>
      intro t s
      simp [stepTicks]
  | succ k ih =>
      intro t s
      have hunf : (stepTicks net p dt (k + 1) t s).2 =
          (stepNeurons net p dt t net.neuronIds s).2 ++
            (stepTicks net p dt k (t + 1)
              (stepNeurons net p dt t net.neuronIds s).1).2 := rfl
      rw [hunf, List.pairwise_append]
      refine ⟨?_, ih (t + 1) _, ?_⟩
      · exact (stepNeurons_sorted net p dt t net.neuronIds s hids).imp_of_mem
          (fun ha hb hlt => Or.inr
            ⟨by rw [stepNeurons_ts net p dt t net.neuronIds s _ ha,
                stepNeurons_ts net p dt t net.neuronIds s _ hb],
             Nat.le_of_lt hlt⟩)
      · intro a ha b hb
        left
        have hats : a.ts = t * dt :=
          stepNeurons_ts net p dt t net.neuronIds s a ha
        have hbts : (t + 1) * dt ≤ b.ts :=
          stepTicks_ts_lower net p dt k (t + 1) _ b hb
        rw [hats]
        calc t * dt < t * dt + dt := Nat.lt_add_of_pos_right hdt
          _ = (t + 1) * dt := (Nat.succ_mul t dt).symm
          _ ≤ b.ts := hbts

theorem build_neuronIds_sorted {b : NetworkBuilder} {net : SNNNetwork}
    (h : hsnn_network_build b = .ok net) :
    net.neuronIds.Pairwise (· < ·) := by
  unfold hsnn_network_build at h
  cases hf : b.synapses.find?
      (fun s => !(declaredb b.ranges s.pre && declaredb b.ranges s.post)) with
  | some s =>
      rw [hf] at h
      exact absurd h (by simp)
  | none =>
      rw [hf] at h
      have hnet : net = buildNet b := by
        injection h with h
        exact h.symm
      rw [hnet]
      exact (List.pairwise_lt_range (rangesBound b.ranges)).filter _

/-- C3: every event trace produced by a fixed-step run on a built network
has non-decreasing timestamps, with ties broken by non-decreasing neuron
id — each tick's events carry that tick's timestamp and are emitted in
ascending id order, and ticks advance strictly. -/
theorem c3_trace_ordering (b : NetworkBuilder) (p : NeuronParams)
    (net : SNNNetwork) (dt duration seed : Nat) (trace : List SpikeEvent)
    (hb : hsnn_network_build b = .ok net)
    (hr : runFixedStep p net dt duration seed = .ok trace) :
    trace.Pairwise evLe := by
  have hsorted := build_neuronIds_sorted hb
  unfold runFixedStep at hr
  by_cases h0 : dt = 0
  · rw [if_pos h0] at hr
    exact absurd hr (by simp)
  · rw [if_neg h0] at hr
    by_cases h1 : duration % dt ≠ 0
    · rw [if_pos h1] at hr
      exact absurd hr (by simp)
    · rw [if_neg h1] at hr
      have htr : trace =
          (stepTicks net p dt (duration / dt) 0 (initState p seed)).2 := by
        injection hr with h
        exact h.symm
      rw [htr]
      exact stepTicks_sorted net p dt (Nat.pos_of_ne_zero h0) hsorted _ 0 _

/-- C3 witness: the ordering theorem applied to the run of the network
built from the empty draft (two ticks of `dt = 1`), whose trace is the
empty, trivially ordered trace. -/
theorem c3_witness : List.Pairwise evLe ([] : List SpikeEvent) :=
  c3_trace_ordering hsnn_network_builder_new exParams ⟨[], []⟩ 1 2 0 []
    (by simp [hsnn_network_build, hsnn_network_builder_new, buildNet,
      rangesBound, declaredb])
    (by rfl)
